import Mathlib

/-!
Shallow embedding of `src/demos/FileScannerTool.py` (the scanning and
classification engine of the file-scanner tool) together with proofs about
the claims of its specification.

Modelling conventions:
* Python numbers (floats and ints mixed by the source) are embedded as `ℚ`
  for timestamps/thresholds and `Nat` for raw byte sizes; `round(x, 2)` is
  embedded as rational round-half-to-even at two decimals.
* The directory walk `path.rglob("*")` filtered by `is_file()` is embedded
  as a list of entries in walk order; the outcome of each `stat()` call is
  an `Option Stat` field (`none` models `PermissionError`/`OSError`, which
  the source catches and skips).
* Exceptions are embedded as `Except String`; the value in `.error` is the
  exception description.  Code inside the `try:` block of `use` runs in
  `Except` and is caught by the catch-all handler; code before the `try:`
  block is not caught, so its `.error` escapes to the caller.
-/

namespace FileScanner

/-- Result of a successful `stat()` call on a regular file: byte size and
modification time (seconds since the epoch, embedded as a rational). -/
structure Stat where
  size : Nat
  mtime : ℚ
  deriving DecidableEq, Repr

/-- One regular file yielded by the walk: its path relative to the scan
root (`str(file_path.relative_to(path))`), its final name component
(`file_path.name`), and the outcome of `stat()` on it (`none` models a
`PermissionError` or `OSError`). -/
structure Entry where
  relPath : String
  name : String
  stat : Option Stat
  deriving DecidableEq, Repr

/-- One classified file, as appended to `results` by the source: relative
path, size in megabytes rounded to two decimals, and a reason string. -/
structure Finding where
  path : String
  size_mb : ℚ
  reason : String
  deriving DecidableEq, Repr

/-- Embedding of Python round-half-to-even of a rational to an integer,
the rounding mode of the builtin `round`. -/
def pyRoundInt (x : ℚ) : ℤ :=
  let f : ℤ := ⌊x⌋
  let r : ℚ := x - f
  if r < 1 / 2 then f
  else if 1 / 2 < r then f + 1
  else if f % 2 = 0 then f else f + 1

/-- Embedding of Python `round(x, 2)`. -/
def pyRound2 (x : ℚ) : ℚ := (pyRoundInt (x * 100) : ℚ) / 100

/-- Size in megabytes as the source computes it for every finding:
`round(size / (1024 * 1024), 2)`. -/
def mbOf (size : Nat) : ℚ := pyRound2 ((size : ℚ) / (1024 * 1024))

/-- Embedding of Python `int(x)` on a number: truncation toward zero. -/
def pyIntTrunc (x : ℚ) : ℤ := if 0 ≤ x then ⌊x⌋ else ⌈x⌉

/-- Index of the last occurrence of a dot in a character list, if any
(Python `name.rfind(".")` restricted to the found case). -/
def rfindDot : List Char → Option Nat
  | [] => none
  | c :: cs =>
    match rfindDot cs with
    | some i => some (i + 1)
    | none => if c = '.' then some 0 else none

/-- Embedding of `pathlib.PurePath.suffix` on a file name: the substring
from the last dot, provided that dot is neither the first nor the last
character; otherwise the empty string. -/
def pySuffix (name : String) : String :=
  match rfindDot name.data with
  | some i => if 0 < i ∧ i + 1 < name.data.length then ⟨name.data.drop i⟩ else ""
  | none => ""

/-- Embedding of Python `str.lower()` (ASCII case folding, which is all
the source's fixed extension and pattern sets need). -/
def pyLower (s : String) : String := ⟨s.data.map Char.toLower⟩

/-- The whitespace set of Python `str.strip()` and of the regex class
`\s`: space, tab, newline, carriage return, form feed, vertical tab. -/
def pyIsSpace (c : Char) : Bool :=
  c.toNat = 32 || c.toNat = 9 || c.toNat = 10 || c.toNat = 13 ||
    c.toNat = 12 || c.toNat = 11

/-- Embedding of Python `str.strip()`: drop whitespace from both ends. -/
def pyStrip (s : String) : String :=
  ⟨((s.data.dropWhile pyIsSpace).reverse.dropWhile pyIsSpace).reverse⟩

/-- Helper of `pySplitComma`: the accumulator holds the current piece in
reverse. -/
def splitCommaAux : List Char → List Char → List String
  | acc, [] => [⟨acc.reverse⟩]
  | acc, c :: t =>
    if c = ',' then ⟨acc.reverse⟩ :: splitCommaAux [] t
    else splitCommaAux (c :: acc) t

/-- Embedding of Python `s.split(",")`: empty pieces are kept. -/
def pySplitComma (s : String) : List String :=
  splitCommaAux [] s.data

/-- Whether the first character list leads the second one. -/
def leadsList : List Char → List Char → Bool
  | [], _ => true
  | _ :: _, [] => false
  | a :: as, b :: bs => a = b && leadsList as bs

/-- Whether the first character list occurs contiguously inside the
second. -/
def occursIn (needle : List Char) : List Char → Bool
  | [] => leadsList needle []
  | c :: t => leadsList needle (c :: t) || occursIn needle t

/-- Embedding of the Python substring test `needle in hay`. -/
def strContainsSub (hay needle : String) : Bool :=
  occursIn needle.data hay.data

/-- Entries whose `stat()` succeeded, paired with their stat data, in walk
order. -/
def liveStats (es : List Entry) : List (Entry × Stat) :=
  es.filterMap fun e =>
    match e.stat with
    | some st => some (e, st)
    | none => none

/-- The finding the source appends for entry `e` with stat `st` and the
given reason string. -/
def mkFinding (e : Entry) (st : Stat) (reason : String) : Finding :=
  { path := e.relPath, size_mb := mbOf st.size, reason := reason }

/-! ### Large-file scan (`_scan_large_files`) -/

/-- The qualification test of `_scan_large_files`: `size >= min_bytes`
where `min_bytes = min_size_mb * 1024 * 1024`, and the extension filter is
empty or contains `file_path.suffix.lower()`. -/
def largeQual (minSizeMb : ℚ) (exts : List String) (name : String) (size : Nat) : Bool :=
  decide (minSizeMb * (1024 * 1024) ≤ (size : ℚ)) &&
    (exts.isEmpty || exts.contains (pyLower (pySuffix name)))

/-- The loop body of `_scan_large_files`: findings for qualifying readable
files in walk order, together with the accumulated raw-byte total.  The
source appends to a list and a running total; this is the same list built
by recursion on the walk. -/
def largeHits (minSizeMb : ℚ) (exts : List String) : List Entry → List Finding × Nat
  | [] => ([], 0)
  | e :: es =>
    match e.stat with
    | none => largeHits minSizeMb exts es
    | some st =>
      if largeQual minSizeMb exts e.name st.size then
        (mkFinding e st "Large file" :: (largeHits minSizeMb exts es).1,
          st.size + (largeHits minSizeMb exts es).2)
      else largeHits minSizeMb exts es

/-- Stable descending insertion by `size_mb`: `x` is placed before every
element whose key is less than or equal to its own.  Used to model
`results.sort(key=lambda x: x["size_mb"], reverse=True)`: CPython sorting
is stable, and `reverse=True` keeps equal-keyed elements in their original
order, which is exactly what this insertion realises when elements are
inserted in walk order. -/
def insDesc (x : Finding) : List Finding → List Finding
  | [] => [x]
  | y :: ys => if y.size_mb ≤ x.size_mb then x :: y :: ys else y :: insDesc x ys

/-- Stable descending sort by `size_mb` (see `insDesc`). -/
def sortDesc : List Finding → List Finding
  | [] => []
  | x :: xs => insDesc x (sortDesc xs)

/-- Embedding of `_scan_large_files`: collect qualifying files in walk
order, then sort the findings descending by rounded megabyte size (stable),
returning them with the accumulated raw-byte total. -/
def scanLargeFiles (minSizeMb : ℚ) (exts : List String) (es : List Entry) :
    List Finding × Nat :=
  let rt := largeHits minSizeMb exts es
  (sortDesc rt.1, rt.2)

/-! ### Temporary-file scan (`_scan_temp_files`) -/

/-- The literal `temp_extensions` list of the source.  Note that the last
entry, a bare tilde, can never equal a `pathlib` suffix, which is either
empty or starts with a dot. -/
def tempExtensions : List String := [".tmp", ".temp", ".cache", ".log", ".bak", "~"]

/-- The literal `temp_patterns` list of the source. -/
def tempPatterns : List String := ["tmp", "temp", "cache", "__pycache__"]

/-- The `is_temp` test of `_scan_temp_files`: lower-cased suffix among
`temp_extensions`, or lower-cased name containing one of `temp_patterns`. -/
def isTempName (name : String) : Bool :=
  tempExtensions.contains (pyLower (pySuffix name)) ||
    tempPatterns.any fun p => strContainsSub (pyLower name) p

/-- Embedding of `_scan_temp_files`: the name test needs no metadata; the
subsequent `stat()` for the size may fail, in which case the file is
skipped. -/
def scanTempFiles : List Entry → List Finding × Nat
  | [] => ([], 0)
  | e :: es =>
    if isTempName e.name then
      match e.stat with
      | none => scanTempFiles es
      | some st =>
        (mkFinding e st "Temporary file" :: (scanTempFiles es).1,
          st.size + (scanTempFiles es).2)
    else scanTempFiles es

/-! ### Old-file scan (`_scan_old_files`) -/

/-- The reason string of `_scan_old_files` for a computed age in days. -/
def oldReason (n : ℤ) : String := "Not modified in " ++ toString n ++ " days"

/-- Loop of `_scan_old_files`.  `cutoff` is the timestamp computed once at
scan start; `tEval k` is the value of the `time.time()` call made while
appending the `k`-th finding (the source re-reads the clock for each
displayed age); `k` counts findings appended so far. -/
def scanOldFilesAux (cutoff : ℚ) (tEval : Nat → ℚ) (k : Nat) :
    List Entry → List Finding × Nat
  | [] => ([], 0)
  | e :: es =>
    match e.stat with
    | none => scanOldFilesAux cutoff tEval k es
    | some st =>
      if st.mtime < cutoff then
        (mkFinding e st (oldReason (pyIntTrunc ((tEval k - st.mtime) / (24 * 60 * 60)))) ::
            (scanOldFilesAux cutoff tEval (k + 1) es).1,
          st.size + (scanOldFilesAux cutoff tEval (k + 1) es).2)
      else scanOldFilesAux cutoff tEval k es

/-- Embedding of `_scan_old_files`: the cutoff is
`time.time() - days * 24 * 60 * 60`, captured once (`t0` is the clock
value at scan start). -/
def scanOldFiles (days : Nat) (t0 : ℚ) (tEval : Nat → ℚ) (es : List Entry) :
    List Finding × Nat :=
  scanOldFilesAux (t0 - (days : ℚ) * (24 * 60 * 60)) tEval 0 es

/-! ### Duplicate scan (`_scan_duplicates`) -/

/-- Embedding of `size_groups.setdefault(size, []).append(file_path)` on an
association list kept in first-seen key order, which is how a Python dict
iterates. -/
def addToGroups (size : Nat) (p : String) :
    List (Nat × List String) → List (Nat × List String)
  | [] => [(size, [p])]
  | (s, ps) :: gs =>
    if s = size then (s, ps ++ [p]) :: gs
    else (s, ps) :: addToGroups size p gs

/-- First pass of `_scan_duplicates`: build the size groups over the walk,
skipping entries whose `stat()` fails. -/
def groupBySizeAux (acc : List (Nat × List String)) : List Entry → List (Nat × List String)
  | [] => acc
  | e :: es =>
    match e.stat with
    | none => groupBySizeAux acc es
    | some st => groupBySizeAux (addToGroups st.size e.relPath acc) es

/-- The complete size-group mapping of a walk. -/
def groupBySize (es : List Entry) : List (Nat × List String) :=
  groupBySizeAux [] es

/-- The reason string of `_scan_duplicates` for a group of `k` files. -/
def dupReason (k : Nat) : String :=
  "Potential duplicate (" ++ toString k ++ " files with same size)"

/-- Second pass of `_scan_duplicates`: every group with more than one
member and positive size contributes all members except the first, each
adding the group size to the raw-byte total. -/
def dupFromGroups : List (Nat × List String) → List Finding × Nat
  | [] => ([], 0)
  | (s, ps) :: gs =>
    if 1 < ps.length ∧ 0 < s then
      (((ps.drop 1).map fun p =>
          { path := p, size_mb := mbOf s, reason := dupReason ps.length }) ++
          (dupFromGroups gs).1,
        s * (ps.length - 1) + (dupFromGroups gs).2)
    else dupFromGroups gs

/-- Embedding of `_scan_duplicates`. -/
def scanDuplicates (es : List Entry) : List Finding × Nat :=
  dupFromGroups (groupBySize es)

/-! ### The `use` entry point -/

/-- A Python value as far as the parameter handling of `use` observes it:
a string or a number.  (The source can also receive lists etc.; the claims
only exercise strings and numbers.) -/
inductive PyVal where
  | str (s : String)
  | num (q : ℚ)
  deriving DecidableEq, Repr

/-- Python truthiness of a `PyVal`. -/
def pyTruthy : PyVal → Bool
  | .str s => s ≠ ""
  | .num q => q ≠ 0

/-- Display of a `PyVal` inside an f-string. -/
def pyValRepr : PyVal → String
  | .str s => s
  | .num q => toString q

/-- Digits of a decimal literal folded to a natural number. -/
def digitsToNat (l : List Char) : Nat :=
  l.foldl (fun a c => a * 10 + (c.toNat - 48)) 0

/-- Split a character list at the first dot, if any. -/
def splitAtDot : List Char → List Char × Option (List Char)
  | [] => ([], none)
  | c :: r =>
    if c = '.' then ([], some r)
    else
      let p := splitAtDot r
      (c :: p.1, p.2)

/-- Modelled from the spec and the Python builtin: `float(s)` restricted
to plain decimal literals (optional sign, digits, optional fractional
part, surrounding whitespace).  The claims depend only on such literals
being accepted and on non-numeric strings being rejected. -/
def parseFloatLit (s : String) : Option ℚ :=
  let l := (pyStrip s).data
  let sl : ℚ × List Char :=
    match l with
    | '-' :: r => (-1, r)
    | '+' :: r => (1, r)
    | _ => (1, l)
  let p := splitAtDot sl.2
  let intp := p.1
  let frac := (p.2).getD []
  if intp ++ frac = [] then none
  else if (intp ++ frac).all (fun c => '0' ≤ c && c ≤ '9') then
    some (sl.1 * ((digitsToNat intp : ℚ) + (digitsToNat frac : ℚ) / (10 : ℚ) ^ frac.length))
  else none

/-- Embedding of `float(v)` on a `PyVal`: numbers pass through; strings
must be numeric literals, otherwise a `ValueError` is raised. -/
def pyFloat : PyVal → Except String ℚ
  | .num q => .ok q
  | .str s =>
    match parseFloatLit s with
    | some q => .ok q
    | none => .error ("ValueError: could not convert string to float: " ++ s)

/-- Try to match, at the head of the character list, the regex fragment
`\s*:\s*(q)(.+?)(q)` for a quote character `q`, returning the quoted body.
The non-greedy body is the run up to the next identical quote; per regex
`.` it may not contain a newline and must be non-empty.  (A body that
itself starts with the quote character, where the regex would backtrack,
is not modelled; no claim exercises this helper.) -/
def matchColonQuoted (l : List Char) : Option String :=
  let l := l.dropWhile pyIsSpace
  match l with
  | ':' :: r =>
    let r := r.dropWhile pyIsSpace
    match r with
    | q :: body =>
      if q = '"' ∨ q = '\'' then
        let taken := body.takeWhile fun c => c ≠ q
        if taken.length = 0 ∨ taken.any (fun c => c = '\n') ∨
            body.drop taken.length = [] then none
        else some ⟨taken⟩
      else none
    | [] => none
  | _ => none

/-- All suffixes of a character list, longest first. -/
def tailsOf : List Char → List (List Char)
  | [] => [[]]
  | c :: t => (c :: t) :: tailsOf t

/-- Embedding of `re.search` for the source pattern
`"path"\s*:\s*([\'"])(.+?)\1` applied to the first comma token of the
fallback input: the leftmost position where the literal `"path"` is
followed by a colon and a quoted body wins. -/
def extractPathLiteral (s : String) : Option String :=
  (tailsOf s.data).findSome? fun t =>
    if leadsList "\"path\"".data t then
      matchColonQuoted (t.drop 6)
    else none

/-- One of the argument shapes `use` accepts.  The JSON branch is embedded
by the outcome of `json.loads` (possibly after the backslash fix): the
helper catches every `JSONDecodeError` itself, so this layer never raises,
and a failed or non-dict parse falls through to the comma-separated
branch, embedded as `commaString`. -/
inductive ParsedInput where
  | jsonDict (path min_size_mb extensions scan_type : Option PyVal)
  | commaString (s : String)
  | kwargs (path min_size_mb extensions scan_type : Option PyVal)
  | noArgs
  deriving Repr

/-- The argument-extraction phase of `use` (everything before the `try:`
block).  An `.error` here is an uncaught Python exception escaping to the
caller; the only raising operation is the `float(...)` conversion of
`min_size_mb` in the dict-shaped branches. -/
def parseArgs : ParsedInput → Except String (PyVal × ℚ × PyVal × PyVal)
  | .jsonDict p m e st =>
    match pyFloat (m.getD (.num 10)) with
    | .error err => .error err
    | .ok mv => .ok (p.getD (.str "."), mv, e.getD (.str ""), st.getD (.str "large_files"))
  | .commaString s =>
    let parts := (pySplitComma s).map pyStrip
    let raw := parts.headD "."
    let raw :=
      match extractPathLiteral raw with
      | some p => p
      | none => raw
    .ok (.str raw, 10, .str (parts.getD 1 ""), .str (parts.getD 2 "large_files"))
  | .kwargs p m e st =>
    match pyFloat (m.getD (.num 10)) with
    | .error err => .error err
    | .ok mv => .ok (p.getD (.str "."), mv, e.getD (.str ""), st.getD (.str "large_files"))
  | .noArgs => .ok (.str ".", 10, .str "", .str "large_files")

/-- Normalization of one comma token of the extensions string: strip and
lower-case, drop if empty, prepend a dot if missing.  The `continue` of
the source loop is the `none` case. -/
def normToken (e : String) : Option String :=
  let e := pyLower (pyStrip e)
  if e = "" then none
  else if leadsList ".".data e.data then some e
  else some ("." ++ e)

/-- The extension-normalization loop of `use` on a raw comma-separated
string. -/
def normalizeExtList (s : String) : List String :=
  (pySplitComma s).filterMap normToken

/-- The `if extensions:` guard of `use`: a falsy value yields the empty
list without normalization; a truthy string is normalized; a truthy
number reaches `.split` and raises an `AttributeError` (which the
catch-all handler of `use` later converts to a structured error). -/
def normalizeTruthy : PyVal → Except String (List String)
  | .str s => if s ≠ "" then .ok (normalizeExtList s) else .ok []
  | .num q =>
    if q ≠ 0 then .error "AttributeError: float object has no attribute split"
    else .ok []

/-- The observable outcome of path resolution and of the walk.
`_resolve_scan_path` consults the operating system (home directory,
environment variables, platform aliases), which is outside the engine; the
record carries its observable outcome: the resolved path, whether it
exists and is a directory, the walked regular files in order, the clock
value `t0` at the old-files cutoff computation, and `tEval k`, the clock
value at the `k`-th age evaluation. -/
structure Env where
  pathExists : Bool
  pathIsDir : Bool
  resolvedPath : String
  entries : List Entry
  t0 : ℚ
  tEval : Nat → ℚ

/-- The serialized report of a successful scan (`json.dumps` argument of
`use`). -/
structure ScanReport where
  scan_type : String
  path : String
  files_found : Nat
  total_size_mb : ℚ
  files : List Finding
  note : String
  deriving DecidableEq, Repr

/-- A structured value returned by `use`: either a report or one of the
`json.dumps` error objects, carried by its `error` field (the quote
characters and the auxiliary `resolved_path` and `hint` fields are
omitted; no claim inspects them). -/
inductive UseResult where
  | report (r : ScanReport)
  | errorResult (msg : String)
  deriving DecidableEq, Repr

/-- The scan-dispatch of `use`: one of the four modes, or `none` for an
unknown mode.  The old-files mode is invoked with the literal
`days=180`. -/
def runScan (scanType : PyVal) (minSizeMb : ℚ) (exts : List String) (env : Env) :
    Option (List Finding × Nat) :=
  if scanType = .str "large_files" then some (scanLargeFiles minSizeMb exts env.entries)
  else if scanType = .str "temp_files" then some (scanTempFiles env.entries)
  else if scanType = .str "old_files" then some (scanOldFiles 180 env.t0 env.tEval env.entries)
  else if scanType = .str "duplicates" then some (scanDuplicates env.entries)
  else none

/-- The final `json.dumps` of a successful scan: at most 20 findings are
listed, the count and the total are taken over the full result, the total
is rounded once after summing raw bytes, and the note says whether the
listing was truncated. -/
def mkReport (scanType : String) (p : String) (rt : List Finding × Nat) : ScanReport :=
  { scan_type := scanType
    path := p
    files_found := rt.1.length
    total_size_mb := pyRound2 ((rt.2 : ℚ) / (1024 * 1024))
    files := rt.1.take 20
    note := if 20 < rt.1.length then "Limited to first 20 files" else "All files shown" }

/-- The part of the `try:` block after path resolution: existence and
directory checks, extension normalization, dispatch, report. -/
def useAfterResolve (pathV : PyVal) (minSizeMb : ℚ) (extV scanTypeV : PyVal) (env : Env) :
    Except String UseResult :=
  if ¬ env.pathExists then
    .ok (.errorResult ("Path " ++ pyValRepr pathV ++ " does not exist after expansion."))
  else if ¬ env.pathIsDir then
    .ok (.errorResult ("Path " ++ pyValRepr pathV ++ " is not a directory."))
  else
    match normalizeTruthy extV with
    | .error e => .error e
    | .ok extList =>
      match runScan scanTypeV minSizeMb extList env with
      | some rt => .ok (.report (mkReport (pyValRepr scanTypeV) env.resolvedPath rt))
      | none => .ok (.errorResult ("Unknown scan_type: " ++ pyValRepr scanTypeV))

/-- The body of the `try:` block of `use`, given the already-extracted
parameters.  An `.error` is an exception raised inside the block, which
the catch-all handler converts to a structured result.  A non-string,
truthy path value raises inside `_resolve_scan_path` (still within the
`try:` block). -/
def useBody (pathV : PyVal) (minSizeMb : ℚ) (extV scanTypeV : PyVal) (env : Env) :
    Except String UseResult :=
  match pathV with
  | .str _ => useAfterResolve pathV minSizeMb extV scanTypeV env
  | .num q =>
    if q = 0 then useAfterResolve pathV minSizeMb extV scanTypeV env
    else .error "AttributeError: float object has no attribute strip"

/-- Embedding of `FileScannerTool.use`: the argument-extraction phase runs
outside the `try:` block, so its exceptions escape to the caller as
`.error`; the body runs inside and every exception it raises is converted
by the catch-all handler into the structured `Scan failed` result. -/
def use (inp : ParsedInput) (env : Env) : Except String UseResult :=
  match parseArgs inp with
  | .error e => .error e
  | .ok (p, m, e, st) =>
    match useBody p m e st env with
    | .ok r => .ok r
    | .error exn => .ok (.errorResult ("Scan failed: " ++ exn))

/-! ### Helper lemmas -/

/-- Membership in an insertion. -/
theorem mem_insDesc (a x : Finding) (l : List Finding) :
    a ∈ insDesc x l ↔ a = x ∨ a ∈ l := by
  induction l with
  | nil => simp [insDesc]
  | cons y ys ih =>
    rw [insDesc]
    split
    · simp [List.mem_cons]
    · simp only [List.mem_cons, ih]
      tauto

/-- Insertion preserves the descending pairwise order. -/
theorem pairwise_insDesc (x : Finding) (l : List Finding)
    (h : l.Pairwise fun a b => b.size_mb ≤ a.size_mb) :
    (insDesc x l).Pairwise fun a b => b.size_mb ≤ a.size_mb := by
  induction l with
  | nil => simp [insDesc]
  | cons y ys ih =>
    rw [List.pairwise_cons] at h
    rw [insDesc]
    by_cases hc : y.size_mb ≤ x.size_mb
    · rw [if_pos hc, List.pairwise_cons]
      refine ⟨?_, ?_⟩
      · intro b hb
        rcases List.mem_cons.mp hb with rfl | hb
        · exact hc
        · exact le_trans (h.1 b hb) hc
      · rw [List.pairwise_cons]
        exact h
    · rw [if_neg hc, List.pairwise_cons]
      refine ⟨?_, ih h.2⟩
      intro b hb
      rcases (mem_insDesc b x ys).mp hb with rfl | hb
      · exact le_of_lt (lt_of_not_le hc)
      · exact h.1 b hb

/-- The sorted output is pairwise descending in `size_mb`. -/
theorem sortDesc_pairwise (l : List Finding) :
    (sortDesc l).Pairwise fun a b => b.size_mb ≤ a.size_mb := by
  induction l with
  | nil => simp [sortDesc]
  | cons x xs ih => exact pairwise_insDesc x (sortDesc xs) ih

/-- Sorting does not change membership. -/
theorem mem_sortDesc (a : Finding) (l : List Finding) : a ∈ sortDesc l ↔ a ∈ l := by
  induction l with
  | nil => simp [sortDesc]
  | cons x xs ih =>
    rw [sortDesc, mem_insDesc]
    simp [List.mem_cons, ih]

/-- Filtering an insertion at one key value. -/
theorem filter_insDesc (v : ℚ) (x : Finding) (l : List Finding) :
    (insDesc x l).filter (fun f => decide (f.size_mb = v)) =
      if x.size_mb = v then x :: l.filter (fun f => decide (f.size_mb = v))
      else l.filter (fun f => decide (f.size_mb = v)) := by
  induction l with
  | nil =>
    by_cases hx : x.size_mb = v <;> simp [insDesc, hx]
  | cons y ys ih =>
    rw [insDesc]
    by_cases hc : y.size_mb ≤ x.size_mb
    · rw [if_pos hc]
      by_cases hx : x.size_mb = v <;> simp [List.filter_cons, hx]
    · rw [if_neg hc]
      by_cases hx : x.size_mb = v
      · have hy : ¬ y.size_mb = v := fun h => hc (le_of_eq (hx ▸ h))
        simp [List.filter_cons, hy, ih, hx]
      · by_cases hy : y.size_mb = v <;> simp [List.filter_cons, hy, ih, hx]

/-- Stability of the sort: at every key value the filtered subsequence is
unchanged, so equal-keyed findings keep their original relative order. -/
theorem sortDesc_filter (v : ℚ) (l : List Finding) :
    (sortDesc l).filter (fun f => decide (f.size_mb = v)) =
      l.filter (fun f => decide (f.size_mb = v)) := by
  induction l with
  | nil => rfl
  | cons x xs ih =>
    rw [sortDesc, filter_insDesc]
    by_cases hx : x.size_mb = v <;> simp [List.filter_cons, hx, ih]

/-- The walk-order qualifying list of the large-file scan, written as a
filter over the readable entries, with its raw-byte total. -/
theorem largeHits_eq (m : ℚ) (exts : List String) (es : List Entry) :
    largeHits m exts es =
      ((((liveStats es).filter fun p => largeQual m exts p.1.name p.2.size).map
          fun p => mkFinding p.1 p.2 "Large file"),
        (((liveStats es).filter fun p => largeQual m exts p.1.name p.2.size).map
          fun p => p.2.size).sum) := by
  induction es with
  | nil => rfl
  | cons e es ih =>
    rw [largeHits]
    cases he : e.stat with
    | none => simp [liveStats, List.filterMap_cons, he, ih]
    | some st =>
      by_cases hq : largeQual m exts e.name st.size
      · simp [liveStats, List.filterMap_cons, he, hq, List.filter_cons, ih]
      · simp [liveStats, List.filterMap_cons, he, hq, List.filter_cons, ih]

/-- The temp-file scan written as a filter over the readable entries. -/
theorem scanTempFiles_eq (es : List Entry) :
    scanTempFiles es =
      ((((liveStats es).filter fun p => isTempName p.1.name).map
          fun p => mkFinding p.1 p.2 "Temporary file"),
        (((liveStats es).filter fun p => isTempName p.1.name).map
          fun p => p.2.size).sum) := by
  induction es with
  | nil => rfl
  | cons e es ih =>
    rw [scanTempFiles]
    by_cases ht : isTempName e.name
    · cases he : e.stat with
      | none => simp [liveStats, List.filterMap_cons, he, ht, ih]
      | some st => simp [liveStats, List.filterMap_cons, he, ht, List.filter_cons, ih]
    · cases he : e.stat with
      | none => simp [liveStats, List.filterMap_cons, he, ht, ih]
      | some st => simp [liveStats, List.filterMap_cons, he, ht, List.filter_cons, ih]

/-- A key of `addToGroups` output is the inserted size or a key of the
accumulator. -/
theorem mem_addToGroups_key (sz : Nat) (p : String) (s : Nat) (ps : List String)
    (acc : List (Nat × List String)) (h : (s, ps) ∈ addToGroups sz p acc) :
    s = sz ∨ ∃ ps2, (s, ps2) ∈ acc := by
  induction acc with
  | nil =>
    rw [addToGroups] at h
    rcases List.mem_singleton.mp h with heq
    exact Or.inl (congrArg Prod.fst heq)
  | cons g gs ih =>
    obtain ⟨a, qs⟩ := g
    rw [addToGroups] at h
    by_cases ha : a = sz
    · rw [if_pos ha] at h
      rcases List.mem_cons.mp h with heq | hm
      · exact Or.inl ((congrArg Prod.fst heq).trans ha)
      · exact Or.inr ⟨ps, List.mem_cons_of_mem _ hm⟩
    · rw [if_neg ha] at h
      rcases List.mem_cons.mp h with heq | hm
      · rw [Prod.mk.injEq] at heq
        exact Or.inr ⟨qs, heq.1 ▸ List.mem_cons_self _ _⟩
      · rcases ih hm with h1 | ⟨ps2, h2⟩
        · exact Or.inl h1
        · exact Or.inr ⟨ps2, List.mem_cons_of_mem _ h2⟩

/-- Every key of the size-group mapping is the byte size of some readable
entry (or was already in the accumulator). -/
theorem mem_groupBySizeAux_key (es : List Entry) (acc : List (Nat × List String))
    (s : Nat) (ps : List String) (h : (s, ps) ∈ groupBySizeAux acc es) :
    (∃ ps2, (s, ps2) ∈ acc) ∨ ∃ e ∈ es, ∃ st, e.stat = some st ∧ st.size = s := by
  induction es generalizing acc with
  | nil => exact Or.inl ⟨ps, h⟩
  | cons e es ih =>
    cases he : e.stat with
    | none =>
      simp only [groupBySizeAux, he] at h
      rcases ih acc h with h1 | ⟨e2, hm, st, h2, h3⟩
      · exact Or.inl h1
      · exact Or.inr ⟨e2, List.mem_cons_of_mem _ hm, st, h2, h3⟩
    | some st =>
      simp only [groupBySizeAux, he] at h
      rcases ih _ h with ⟨ps2, h1⟩ | ⟨e2, hm, st2, h2, h3⟩
      · rcases mem_addToGroups_key st.size e.relPath s ps2 acc h1 with h4 | h5
        · exact Or.inr ⟨e, List.mem_cons_self _ _, st, he, h4.symm⟩
        · exact Or.inl h5
      · exact Or.inr ⟨e2, List.mem_cons_of_mem _ hm, st2, h2, h3⟩

/-- The inserted path lands in the group of its size. -/
theorem addToGroups_self (sz : Nat) (p : String) (acc : List (Nat × List String)) :
    ∃ ps, (sz, ps) ∈ addToGroups sz p acc ∧ p ∈ ps := by
  induction acc with
  | nil => exact ⟨[p], by simp [addToGroups]⟩
  | cons g gs ih =>
    obtain ⟨a, qs⟩ := g
    by_cases ha : a = sz
    · subst ha
      exact ⟨qs ++ [p], by simp [addToGroups], by simp⟩
    · obtain ⟨ps, hm, hp⟩ := ih
      exact ⟨ps, by simp [addToGroups, ha, List.mem_cons_of_mem, hm], hp⟩

/-- Inserting never removes a path from its group. -/
theorem addToGroups_preserve (sz : Nat) (p : String) (s : Nat) (ps : List String)
    (p2 : String) (acc : List (Nat × List String)) (hm : (s, ps) ∈ acc) (hp : p2 ∈ ps) :
    ∃ ps2, (s, ps2) ∈ addToGroups sz p acc ∧ p2 ∈ ps2 := by
  induction acc with
  | nil => cases hm
  | cons g gs ih =>
    rcases List.mem_cons.mp hm with heq | hm2
    · subst heq
      rw [addToGroups]
      by_cases ha : s = sz
      · rw [if_pos ha]
        exact ⟨ps ++ [p], List.mem_cons_self _ _, List.mem_append_left _ hp⟩
      · rw [if_neg ha]
        exact ⟨ps, List.mem_cons_self _ _, hp⟩
    · obtain ⟨a, qs⟩ := g
      rw [addToGroups]
      by_cases ha : a = sz
      · rw [if_pos ha]
        exact ⟨ps, List.mem_cons_of_mem _ hm2, hp⟩
      · rw [if_neg ha]
        obtain ⟨ps2, hm3, hp3⟩ := ih hm2
        exact ⟨ps2, List.mem_cons_of_mem _ hm3, hp3⟩

/-- Running the grouping pass never removes a path from its group. -/
theorem groupBySizeAux_preserve (es : List Entry) (acc : List (Nat × List String))
    (s : Nat) (ps : List String) (p2 : String) (hm : (s, ps) ∈ acc) (hp : p2 ∈ ps) :
    ∃ ps2, (s, ps2) ∈ groupBySizeAux acc es ∧ p2 ∈ ps2 := by
  induction es generalizing acc ps with
  | nil => exact ⟨ps, hm, hp⟩
  | cons e es ih =>
    cases he : e.stat with
    | none =>
      simp only [groupBySizeAux, he]
      exact ih acc ps hm hp
    | some st =>
      simp only [groupBySizeAux, he]
      obtain ⟨ps2, hm2, hp2⟩ := addToGroups_preserve st.size e.relPath s ps p2 acc hm hp
      exact ih _ ps2 hm2 hp2

/-- Every readable entry ends up in the group of its byte size. -/
theorem groupBySizeAux_covers (es : List Entry) (e : Entry) (st : Stat)
    (he : e ∈ es) (hst : e.stat = some st) (acc : List (Nat × List String)) :
    ∃ ps, (st.size, ps) ∈ groupBySizeAux acc es ∧ e.relPath ∈ ps := by
  induction es generalizing acc with
  | nil => cases he
  | cons e2 es ih =>
    rcases List.mem_cons.mp he with rfl | he2
    · simp only [groupBySizeAux, hst]
      obtain ⟨ps, hm, hp⟩ := addToGroups_self st.size e.relPath acc
      exact groupBySizeAux_preserve es _ st.size ps e.relPath hm hp
    · cases h2 : e2.stat with
      | none =>
        simp only [groupBySizeAux, h2]
        exact ih he2 acc
      | some st2 =>
        simp only [groupBySizeAux, h2]
        exact ih he2 _

/-- Membership in the duplicate findings, characterized by the groups. -/
theorem mem_dupFromGroups (gs : List (Nat × List String)) (f : Finding) :
    f ∈ (dupFromGroups gs).1 ↔
      ∃ s ps p, (s, ps) ∈ gs ∧ 1 < ps.length ∧ 0 < s ∧ p ∈ ps.drop 1 ∧
        f = ⟨p, mbOf s, dupReason ps.length⟩ := by
  induction gs with
  | nil => simp [dupFromGroups]
  | cons g gs ih =>
    obtain ⟨s0, ps0⟩ := g
    by_cases hc : 1 < ps0.length ∧ 0 < s0
    · rw [dupFromGroups, if_pos hc]
      simp only [List.mem_append, List.mem_map, ih]
      constructor
      · rintro (⟨p, hp, rfl⟩ | ⟨s, ps, p, hm, h1, h0, hp, rfl⟩)
        · exact ⟨s0, ps0, p, List.mem_cons_self _ _, hc.1, hc.2, hp, rfl⟩
        · exact ⟨s, ps, p, List.mem_cons_of_mem _ hm, h1, h0, hp, rfl⟩
      · rintro ⟨s, ps, p, hm, h1, h0, hp, rfl⟩
        rcases List.mem_cons.mp hm with heq | hm2
        · rw [Prod.mk.injEq] at heq
          obtain ⟨rfl, rfl⟩ := heq
          exact Or.inl ⟨p, hp, rfl⟩
        · exact Or.inr ⟨s, ps, p, hm2, h1, h0, hp, rfl⟩
    · rw [dupFromGroups, if_neg hc]
      rw [ih]
      constructor
      · rintro ⟨s, ps, p, hm, h1, h0, hp, rfl⟩
        exact ⟨s, ps, p, List.mem_cons_of_mem _ hm, h1, h0, hp, rfl⟩
      · rintro ⟨s, ps, p, hm, h1, h0, hp, rfl⟩
        rcases List.mem_cons.mp hm with heq | hm2
        · rw [Prod.mk.injEq] at heq
          obtain ⟨rfl, rfl⟩ := heq
          exact absurd ⟨h1, h0⟩ hc
        · exact ⟨s, ps, p, hm2, h1, h0, hp, rfl⟩

/-- The duplicate findings count: every qualifying group contributes all
members except the first. -/
theorem length_dupFromGroups (gs : List (Nat × List String)) :
    (dupFromGroups gs).1.length =
      (gs.map fun g => if 1 < g.2.length ∧ 0 < g.1 then g.2.length - 1 else 0).sum := by
  induction gs with
  | nil => rfl
  | cons g gs ih =>
    obtain ⟨s0, ps0⟩ := g
    by_cases hc : 1 < ps0.length ∧ 0 < s0
    · simp [dupFromGroups, hc, ih]
    · simp [dupFromGroups, hc, ih]

/-- The raw-byte total of the duplicate scan: group size times surplus
member count, summed over qualifying groups. -/
theorem total_dupFromGroups (gs : List (Nat × List String)) :
    (dupFromGroups gs).2 =
      (gs.map fun g => if 1 < g.2.length ∧ 0 < g.1 then g.1 * (g.2.length - 1) else 0).sum := by
  induction gs with
  | nil => rfl
  | cons g gs ih =>
    obtain ⟨s0, ps0⟩ := g
    by_cases hc : 1 < ps0.length ∧ 0 < s0
    · simp [dupFromGroups, hc, ih]
    · simp [dupFromGroups, hc, ih]

/-- Groups whose keys are all zero yield nothing. -/
theorem dupFromGroups_zero (gs : List (Nat × List String))
    (h : ∀ g ∈ gs, g.1 = 0) : dupFromGroups gs = ([], 0) := by
  induction gs with
  | nil => rfl
  | cons g gs ih =>
    obtain ⟨s0, ps0⟩ := g
    have h0 : s0 = 0 := h _ (List.mem_cons_self _ _)
    subst h0
    rw [dupFromGroups, if_neg (by simp)]
    exact ih fun g hg => h g (List.mem_cons_of_mem _ hg)

/-- If `rfindDot` finds an index, the list from that index starts with a
dot. -/
theorem rfindDot_drop (l : List Char) (i : Nat) (h : rfindDot l = some i) :
    ∃ t, l.drop i = '.' :: t := by
  induction l generalizing i with
  | nil => cases h
  | cons c cs ih =>
    rw [rfindDot] at h
    cases hr : rfindDot cs with
    | some j =>
      rw [hr] at h
      injection h with h
      subst h
      obtain ⟨t, ht⟩ := ih j hr
      exact ⟨t, ht⟩
    | none =>
      rw [hr] at h
      by_cases hc : c = '.'
      · rw [if_pos hc] at h
        injection h with h
        subst h
        exact ⟨cs, by rw [hc]; simp⟩
      · rw [if_neg hc] at h
        cases h

/-- The old-files loop written as a filter over the readable entries: the
`k`-th qualifying file (counting from the accumulator offset) gets its age
from the clock value `tEval k`. -/
theorem scanOldFilesAux_eq (cutoff : ℚ) (tEval : Nat → ℚ) (k : Nat) (es : List Entry) :
    scanOldFilesAux cutoff tEval k es =
      ((List.enumFrom k ((liveStats es).filter fun p => decide (p.2.mtime < cutoff))).map
          fun q => mkFinding q.2.1 q.2.2
            (oldReason (pyIntTrunc ((tEval q.1 - q.2.2.mtime) / (24 * 60 * 60)))),
        (((liveStats es).filter fun p => decide (p.2.mtime < cutoff)).map
          fun p => p.2.size).sum) := by
  induction es generalizing k with
  | nil => rfl
  | cons e es ih =>
    cases he : e.stat with
    | none =>
      simp only [scanOldFilesAux, he, liveStats, List.filterMap_cons]
      exact ih k
    | some st =>
      by_cases hm : st.mtime < cutoff
      · simp [scanOldFilesAux, he, hm, liveStats, List.filterMap_cons, List.filter_cons,
          List.enumFrom, ih]
      · simp [scanOldFilesAux, he, hm, liveStats, List.filterMap_cons, List.filter_cons, ih]

/-- An entry whose `stat()` fails contributes nothing to the large-file
loop. -/
theorem largeHits_skip (m : ℚ) (exts : List String) (pre post : List Entry)
    (bad : Entry) (hb : bad.stat = none) :
    largeHits m exts (pre ++ bad :: post) = largeHits m exts (pre ++ post) := by
  induction pre with
  | nil => simp only [List.nil_append, largeHits, hb]
  | cons e pre ih =>
    simp only [List.cons_append, largeHits, List.append_eq, ih]

/-- An entry whose `stat()` fails contributes nothing to the temp-file
scan. -/
theorem scanTempFiles_skip (pre post : List Entry) (bad : Entry)
    (hb : bad.stat = none) :
    scanTempFiles (pre ++ bad :: post) = scanTempFiles (pre ++ post) := by
  induction pre with
  | nil =>
    simp only [List.nil_append, scanTempFiles, hb]
    by_cases hbn : isTempName bad.name <;> simp [hbn]
  | cons e pre ih =>
    simp only [List.cons_append, scanTempFiles, List.append_eq, ih]

/-- An entry whose `stat()` fails contributes nothing to the old-files
loop, whichever clock offset has been reached. -/
theorem scanOldFilesAux_skip (cutoff : ℚ) (tEval : Nat → ℚ) (pre post : List Entry)
    (bad : Entry) (hb : bad.stat = none) (k : Nat) :
    scanOldFilesAux cutoff tEval k (pre ++ bad :: post) =
      scanOldFilesAux cutoff tEval k (pre ++ post) := by
  induction pre generalizing k with
  | nil => simp only [List.nil_append, scanOldFilesAux, hb]
  | cons e pre ih =>
    simp only [List.cons_append, scanOldFilesAux, List.append_eq, ih]

/-- An entry whose `stat()` fails contributes nothing to the size
groups. -/
theorem groupBySizeAux_skip (pre post : List Entry) (bad : Entry)
    (hb : bad.stat = none) (acc : List (Nat × List String)) :
    groupBySizeAux acc (pre ++ bad :: post) = groupBySizeAux acc (pre ++ post) := by
  induction pre generalizing acc with
  | nil => simp only [List.nil_append, groupBySizeAux, hb]
  | cons e pre ih =>
    cases he : e.stat with
    | none =>
      simp only [List.cons_append, groupBySizeAux, he]
      exact ih acc
    | some st =>
      simp only [List.cons_append, groupBySizeAux, he]
      exact ih _

/-- Characterization of the readable entries. -/
theorem mem_liveStats (es : List Entry) (e : Entry) (st : Stat) :
    (e, st) ∈ liveStats es ↔ e ∈ es ∧ e.stat = some st := by
  induction es with
  | nil => simp [liveStats]
  | cons e2 es ih =>
    cases he : e2.stat with
    | none =>
      simp only [liveStats, List.filterMap_cons, he] at ih ⊢
      rw [ih]
      constructor
      · rintro ⟨hm, hs⟩
        exact ⟨List.mem_cons_of_mem _ hm, hs⟩
      · rintro ⟨hm, hs⟩
        rcases List.mem_cons.mp hm with rfl | hm2
        · rw [he] at hs
          cases hs
        · exact ⟨hm2, hs⟩
    | some st2 =>
      simp only [liveStats, List.filterMap_cons, he] at ih ⊢
      constructor
      · intro hm
        rcases List.mem_cons.mp hm with heq | hm2
        · rw [Prod.mk.injEq] at heq
          obtain ⟨rfl, rfl⟩ := heq
          exact ⟨List.mem_cons_self _ _, he⟩
        · obtain ⟨hm3, hs⟩ := ih.mp hm2
          exact ⟨List.mem_cons_of_mem _ hm3, hs⟩
      · rintro ⟨hm, hs⟩
        rcases List.mem_cons.mp hm with rfl | hm2
        · rw [he] at hs
          injection hs with hs
          subst hs
          exact List.mem_cons_self _ _
        · exact List.mem_cons_of_mem _ (ih.mpr ⟨hm2, hs⟩)

/-- The payload of an enumerated element is an element. -/
theorem snd_mem_enumFrom {α : Type} (l : List α) (k : Nat) (q : Nat × α)
    (h : q ∈ List.enumFrom k l) : q.2 ∈ l := by
  induction l generalizing k with
  | nil => cases h
  | cons a t ih =>
    rcases List.mem_cons.mp h with rfl | h2
    · exact List.mem_cons_self _ _
    · exact List.mem_cons_of_mem _ (ih (k + 1) h2)

/-- A report out of the try-block body comes from a successful dispatch of
one of the four scans, with the normalized extension list. -/
theorem useAfterResolve_report (pathV : PyVal) (m : ℚ) (extV scanTypeV : PyVal)
    (env : Env) (r : ScanReport)
    (h : useAfterResolve pathV m extV scanTypeV env = .ok (.report r)) :
    ∃ extList rt, normalizeTruthy extV = .ok extList ∧
      runScan scanTypeV m extList env = some rt ∧
      r = mkReport (pyValRepr scanTypeV) env.resolvedPath rt := by
  rw [useAfterResolve] at h
  by_cases hex : env.pathExists = true
  · rw [if_neg (by simp [hex])] at h
    by_cases hdir : env.pathIsDir = true
    · rw [if_neg (by simp [hdir])] at h
      split at h
      · cases h
      · split at h
        · rename_i x1 extList heq x2 rt heq2
          refine ⟨extList, rt, heq, heq2, ?_⟩
          injection h with h
          injection h with h
          exact h.symm
        · simp at h
    · rw [if_pos (by simp [hdir])] at h
      simp at h
  · rw [if_pos (by simp [hex])] at h
    simp at h

/-- A structured result of the try-block body is a result of the part
after path resolution. -/
theorem useBody_ok (pathV : PyVal) (m : ℚ) (extV scanTypeV : PyVal) (env : Env)
    (u : UseResult) (h : useBody pathV m extV scanTypeV env = .ok u) :
    useAfterResolve pathV m extV scanTypeV env = .ok u := by
  cases pathV with
  | str s => exact h
  | num q =>
    rw [useBody] at h
    by_cases hq : q = 0
    · rw [if_pos hq] at h
      exact h
    · rw [if_neg hq] at h
      cases h

/-- The extension normalization of a string value always yields the
normalized list (the falsy empty string short-circuits to the same empty
list the normalization loop would produce). -/
theorem normalizeTruthy_str (s : String) :
    normalizeTruthy (.str s) = .ok (normalizeExtList s) := by
  rw [normalizeTruthy]
  by_cases hs : s = ""
  · rw [if_neg (by simp [hs]), hs]
    rfl
  · rw [if_pos hs]

/-- The old-files dispatch ignores the minimum size and the extension
filter and always passes the literal 180 days. -/
theorem runScan_oldFiles (m : ℚ) (exts : List String) (env : Env) :
    runScan (.str "old_files") m exts env =
      some (scanOldFiles 180 env.t0 env.tEval env.entries) := by
  rw [runScan, if_neg (by decide), if_neg (by decide), if_pos rfl]

/-- Any old-files report out of the try-block body is the one fixed
report of the environment. -/
theorem useBody_report_old (p : PyVal) (m : ℚ) (e : PyVal) (env : Env) (r : ScanReport)
    (h : useBody p m e (.str "old_files") env = .ok (.report r)) :
    r = mkReport "old_files" env.resolvedPath
      (scanOldFiles 180 env.t0 env.tEval env.entries) := by
  obtain ⟨extList, rt, hn, hr, hrep⟩ :=
    useAfterResolve_report p m e (.str "old_files") env r
      (useBody_ok p m e (.str "old_files") env (.report r) h)
  rw [runScan_oldFiles] at hr
  injection hr with hr
  rw [hrep, ← hr]
  rfl

/-- Any old-files report of a dict-shaped `use` call is the one fixed
report of the environment, whatever `min_size_mb` and `extensions` were
supplied. -/
theorem use_report_old (pV : PyVal) (mV eV : Option PyVal) (env : Env) (r : ScanReport)
    (h : use (.jsonDict (some pV) mV eV (some (.str "old_files"))) env = .ok (.report r)) :
    r = mkReport "old_files" env.resolvedPath
      (scanOldFiles 180 env.t0 env.tEval env.entries) := by
  rw [use] at h
  cases hp : parseArgs (.jsonDict (some pV) mV eV (some (.str "old_files"))) with
  | error err =>
    rw [hp] at h
    cases h
  | ok t =>
    rw [hp] at h
    rw [parseArgs] at hp
    cases hf : pyFloat (mV.getD (.num 10)) with
    | error err =>
      rw [hf] at hp
      cases hp
    | ok mv =>
      rw [hf] at hp
      injection hp with hp
      subst hp
      simp only [Option.getD_some] at h
      cases hb : useBody pV mv (eV.getD (PyVal.str "")) (PyVal.str "old_files") env with
      | error exn =>
        simp [hb] at h
      | ok u =>
        simp [hb] at h
        subst h
        exact useBody_report_old pV mv (eV.getD (PyVal.str "")) env r hb

/-! ### Claim theorems -/

/-- C1: in duplicates mode every readable file is grouped by its exact
byte size; every group with positive size and at least two members yields
one finding per member except the first, with reason
`Potential duplicate (K files with same size)` for the total member count
`K`; zero-size groups yield nothing; three files of one positive size
yield exactly the two findings for the later two files. -/
theorem claim_C1 :
    (∀ (es : List Entry) (e : Entry) (st : Stat), e ∈ es → e.stat = some st →
        ∃ ps, (st.size, ps) ∈ groupBySize es ∧ e.relPath ∈ ps)
  ∧ (∀ (es : List Entry) (f : Finding), f ∈ (scanDuplicates es).1 →
        ∃ s ps p, (s, ps) ∈ groupBySize es ∧ 1 < ps.length ∧ 0 < s ∧
          p ∈ ps.drop 1 ∧ f = ⟨p, mbOf s, dupReason ps.length⟩)
  ∧ (∀ (es : List Entry) (s : Nat) (ps : List String) (p : String),
        (s, ps) ∈ groupBySize es → 1 < ps.length → 0 < s → p ∈ ps.drop 1 →
        (⟨p, mbOf s, dupReason ps.length⟩ : Finding) ∈ (scanDuplicates es).1)
  ∧ (∀ es : List Entry, (scanDuplicates es).1.length =
        ((groupBySize es).map fun g =>
          if 1 < g.2.length ∧ 0 < g.1 then g.2.length - 1 else 0).sum)
  ∧ (∀ (p1 n1 p2 n2 p3 n3 : String) (s : Nat) (m1 m2 m3 : ℚ), 0 < s →
        (scanDuplicates [⟨p1, n1, some ⟨s, m1⟩⟩, ⟨p2, n2, some ⟨s, m2⟩⟩,
            ⟨p3, n3, some ⟨s, m3⟩⟩]).1 =
          [⟨p2, mbOf s, dupReason 3⟩, ⟨p3, mbOf s, dupReason 3⟩])
  ∧ strContainsSub (dupReason 3) "3 files with same size" = true
  ∧ (∀ es : List Entry, (∀ e ∈ es, ∀ st, e.stat = some st → st.size = 0) →
        scanDuplicates es = ([], 0)) := by
  refine ⟨?_, ?_, ?_, ?_, ?_, by decide, ?_⟩
  · intro es e st he hst
    exact groupBySizeAux_covers es e st he hst []
  · intro es f hf
    exact (mem_dupFromGroups (groupBySize es) f).mp hf
  · intro es s ps p hm h1 h0 hp
    exact (mem_dupFromGroups (groupBySize es) _).mpr ⟨s, ps, p, hm, h1, h0, hp, rfl⟩
  · intro es
    exact length_dupFromGroups (groupBySize es)
  · intro p1 n1 p2 n2 p3 n3 s m1 m2 m3 hs
    have hg : groupBySize [⟨p1, n1, some ⟨s, m1⟩⟩, ⟨p2, n2, some ⟨s, m2⟩⟩,
        ⟨p3, n3, some ⟨s, m3⟩⟩] = [(s, [p1, p2, p3])] := by
      simp [groupBySize, groupBySizeAux, addToGroups]
    rw [scanDuplicates, hg, dupFromGroups,
      if_pos (⟨by simp, hs⟩ : 1 < ([p1, p2, p3] : List String).length ∧ 0 < s)]
    simp [dupFromGroups]
  · intro es h
    rw [scanDuplicates]
    apply dupFromGroups_zero
    intro g hg
    obtain ⟨s, ps⟩ := g
    rcases mem_groupBySizeAux_key es [] s ps hg with ⟨ps2, h2⟩ | ⟨e, hm, st, h3, h4⟩
    · cases h2
    · exact h4 ▸ h e hm st h3

/-- C1 witness: three files of size 5 produce exactly the two duplicate
findings predicted by `claim_C1`. -/
theorem claim_C1_witness :
    (scanDuplicates [⟨"a", "a", some ⟨5, 0⟩⟩, ⟨"b", "b", some ⟨5, 0⟩⟩,
        ⟨"c", "c", some ⟨5, 0⟩⟩]).1 =
      [⟨"b", mbOf 5, dupReason 3⟩, ⟨"c", mbOf 5, dupReason 3⟩] :=
  claim_C1.2.2.2.2.1 "a" "a" "b" "b" "c" "c" 5 0 0 0 (by decide)

/-- C4 (code-bug evidence): a `pathlib` suffix is always empty or starts
with a dot, so the bare-tilde entry of `temp_extensions` can never match;
a readable file named `backup~` is not classified as temporary even though
the recognized set is meant to include names with a bare trailing
tilde. -/
theorem claim_C4_bug :
    (∀ name, pySuffix name = "" ∨ ∃ t, (pySuffix name).data = '.' :: t)
  ∧ tempExtensions.contains "~" = true
  ∧ isTempName "backup~" = false
  ∧ scanTempFiles [⟨"backup~", "backup~", some ⟨1048576, 0⟩⟩] = ([], 0) := by
  refine ⟨?_, by decide, by decide, by decide⟩
  intro name
  rw [pySuffix]
  cases hr : rfindDot name.data with
  | none => exact Or.inl rfl
  | some i =>
    by_cases hi : 0 < i ∧ i + 1 < name.data.length
    · obtain ⟨t, ht⟩ := rfindDot_drop name.data i hr
      refine Or.inr ⟨t, ?_⟩
      simp only [hi, and_self, if_true]
      exact ht
    · refine Or.inl ?_
      simp only [ite_eq_right_iff, and_imp]
      intro h1 h2
      exact absurd ⟨h1, h2⟩ hi

/-- C5: in old-files mode a readable file yields a finding exactly when
its modification time is strictly below the cutoff captured once at scan
start as `t0 - 180 * 86400`; the displayed age is the truncated value of
`(clock at evaluation - mtime) / 86400`; a file modified 200 days ago
qualifies with reason `Not modified in 200 days`, one modified 10 days ago
does not. -/
theorem claim_C5 :
    (∀ (t0 : ℚ) (tEval : Nat → ℚ) (es : List Entry),
        scanOldFiles 180 t0 tEval es =
          ((List.enumFrom 0 ((liveStats es).filter
              fun p => decide (p.2.mtime < t0 - 180 * (24 * 60 * 60)))).map
            fun q => mkFinding q.2.1 q.2.2
              (oldReason (pyIntTrunc ((tEval q.1 - q.2.2.mtime) / (24 * 60 * 60)))),
            (((liveStats es).filter
              fun p => decide (p.2.mtime < t0 - 180 * (24 * 60 * 60))).map
              fun p => p.2.size).sum))
  ∧ (∀ (t0 : ℚ) (p1 n1 p2 n2 : String) (sz1 sz2 : Nat),
        (scanOldFiles 180 t0 (fun _ => t0)
            [⟨p1, n1, some ⟨sz1, t0 - 200 * 86400⟩⟩,
              ⟨p2, n2, some ⟨sz2, t0 - 10 * 86400⟩⟩]).1 =
          [⟨p1, mbOf sz1, oldReason 200⟩]) := by
  have hcast : ∀ t0 : ℚ, t0 - ((180 : Nat) : ℚ) * (24 * 60 * 60) = t0 - 180 * (24 * 60 * 60) := by
    intro t0
    norm_num
  constructor
  · intro t0 tEval es
    rw [scanOldFiles, scanOldFilesAux_eq, hcast]
  · intro t0 p1 n1 p2 n2 sz1 sz2
    have hq1 : (t0 - 200 * 86400 : ℚ) < t0 - 180 * (24 * 60 * 60) := by norm_num
    have hq2 : ¬ ((t0 - 10 * 86400 : ℚ) < t0 - 180 * (24 * 60 * 60)) := by
      norm_num
    have hage : (t0 - (t0 - 200 * 86400 : ℚ)) / (24 * 60 * 60) = (200 : ℚ) := by
      norm_num
    rw [scanOldFiles, scanOldFilesAux_eq, hcast]
    simp only [liveStats, List.filterMap_cons, List.filterMap_nil, List.filter_cons,
      List.filter_nil, hq1, hq2, decide_True, decide_False, if_true, if_false,
      List.enumFrom, List.map_cons, List.map_nil]
    rw [hage]
    simp [mkFinding, pyIntTrunc]

/-- C9: in every mode, an entry whose metadata read fails is silently
skipped: it contributes no finding and no bytes, and the scan over the
remaining entries is unchanged. -/
theorem claim_C9 (pre post : List Entry) (bad : Entry) (hb : bad.stat = none) :
    (∀ (m : ℚ) (exts : List String),
        scanLargeFiles m exts (pre ++ bad :: post) = scanLargeFiles m exts (pre ++ post))
  ∧ scanTempFiles (pre ++ bad :: post) = scanTempFiles (pre ++ post)
  ∧ (∀ (days : Nat) (t0 : ℚ) (tEval : Nat → ℚ),
        scanOldFiles days t0 tEval (pre ++ bad :: post) =
          scanOldFiles days t0 tEval (pre ++ post))
  ∧ scanDuplicates (pre ++ bad :: post) = scanDuplicates (pre ++ post) := by
  refine ⟨?_, scanTempFiles_skip pre post bad hb, ?_, ?_⟩
  · intro m exts
    rw [scanLargeFiles, scanLargeFiles, largeHits_skip m exts pre post bad hb]
  · intro days t0 tEval
    rw [scanOldFiles, scanOldFiles, scanOldFilesAux_skip _ _ pre post bad hb]
  · rw [scanDuplicates, scanDuplicates, groupBySize, groupBySize,
      groupBySizeAux_skip pre post bad hb]

/-- C9 witness: a concrete unreadable entry between two readable ones
changes none of the four scans. -/
theorem claim_C9_witness :
    scanTempFiles ([⟨"a.tmp", "a.tmp", some ⟨7, 0⟩⟩] ++
        ⟨"bad.tmp", "bad.tmp", none⟩ :: [⟨"b.log", "b.log", some ⟨9, 0⟩⟩]) =
      scanTempFiles ([⟨"a.tmp", "a.tmp", some ⟨7, 0⟩⟩] ++ [⟨"b.log", "b.log", some ⟨9, 0⟩⟩]) ∧
    scanDuplicates ([⟨"a.tmp", "a.tmp", some ⟨7, 0⟩⟩] ++
        ⟨"bad.tmp", "bad.tmp", none⟩ :: [⟨"b.log", "b.log", some ⟨9, 0⟩⟩]) =
      scanDuplicates ([⟨"a.tmp", "a.tmp", some ⟨7, 0⟩⟩] ++ [⟨"b.log", "b.log", some ⟨9, 0⟩⟩]) :=
  ⟨(claim_C9 [⟨"a.tmp", "a.tmp", some ⟨7, 0⟩⟩] [⟨"b.log", "b.log", some ⟨9, 0⟩⟩]
      ⟨"bad.tmp", "bad.tmp", none⟩ rfl).2.1,
    (claim_C9 [⟨"a.tmp", "a.tmp", some ⟨7, 0⟩⟩] [⟨"b.log", "b.log", some ⟨9, 0⟩⟩]
      ⟨"bad.tmp", "bad.tmp", none⟩ rfl).2.2.2⟩

/-- C8: every finding produced by any of the four classifiers carries as
`size_mb` the value `round(raw_bytes / (1024*1024), 2)` of the raw byte
size of one of the walked files; on a 60MiB file that value is 60. -/
theorem claim_C8 :
    (∀ (m : ℚ) (exts : List String) (es : List Entry) (f : Finding),
        f ∈ (scanLargeFiles m exts es).1 →
          ∃ e ∈ es, ∃ st, e.stat = some st ∧ f.size_mb = mbOf st.size)
  ∧ (∀ (es : List Entry) (f : Finding),
        f ∈ (scanTempFiles es).1 →
          ∃ e ∈ es, ∃ st, e.stat = some st ∧ f.size_mb = mbOf st.size)
  ∧ (∀ (days : Nat) (t0 : ℚ) (tEval : Nat → ℚ) (es : List Entry) (f : Finding),
        f ∈ (scanOldFiles days t0 tEval es).1 →
          ∃ e ∈ es, ∃ st, e.stat = some st ∧ f.size_mb = mbOf st.size)
  ∧ (∀ (es : List Entry) (f : Finding),
        f ∈ (scanDuplicates es).1 →
          ∃ e ∈ es, ∃ st, e.stat = some st ∧ f.size_mb = mbOf st.size)
  ∧ mbOf (60 * 1024 * 1024) = 60 := by
  refine ⟨?_, ?_, ?_, ?_, ?_⟩
  · intro m exts es f hf
    simp only [scanLargeFiles, mem_sortDesc, largeHits_eq, List.mem_map,
      List.mem_filter] at hf
    obtain ⟨⟨e, st⟩, ⟨hmem, _⟩, rfl⟩ := hf
    obtain ⟨hm, hs⟩ := (mem_liveStats es e st).mp hmem
    exact ⟨e, hm, st, hs, rfl⟩
  · intro es f hf
    rw [scanTempFiles_eq] at hf
    simp only [List.mem_map, List.mem_filter] at hf
    obtain ⟨⟨e, st⟩, ⟨hmem, _⟩, rfl⟩ := hf
    obtain ⟨hm, hs⟩ := (mem_liveStats es e st).mp hmem
    exact ⟨e, hm, st, hs, rfl⟩
  · intro days t0 tEval es f hf
    rw [scanOldFiles, scanOldFilesAux_eq] at hf
    simp only [List.mem_map] at hf
    obtain ⟨q, hq, rfl⟩ := hf
    have hmem := snd_mem_enumFrom _ 0 q hq
    obtain ⟨hmem2, _⟩ := List.mem_filter.mp hmem
    obtain ⟨hm, hs⟩ := (mem_liveStats es q.2.1 q.2.2).mp hmem2
    exact ⟨q.2.1, hm, q.2.2, hs, rfl⟩
  · intro es f hf
    obtain ⟨s, ps, p, hg, _, _, _, rfl⟩ := (mem_dupFromGroups (groupBySize es) f).mp hf
    rcases mem_groupBySizeAux_key es [] s ps hg with ⟨ps2, h2⟩ | ⟨e, hm, st, h3, h4⟩
    · cases h2
    · exact ⟨e, hm, st, h3, by rw [h4]⟩
  · norm_num [mbOf, pyRound2, pyRoundInt]

/-- C8 witness: the single temp-file finding of a concrete scan carries
the rounded megabyte size of its file. -/
theorem claim_C8_witness :
    ∃ e ∈ [(⟨"a.tmp", "a.tmp", some ⟨1048576, 0⟩⟩ : Entry)], ∃ st, e.stat = some st ∧
      (mkFinding ⟨"a.tmp", "a.tmp", some ⟨1048576, 0⟩⟩ ⟨1048576, 0⟩
        "Temporary file").size_mb = mbOf st.size :=
  claim_C8.2.1 [⟨"a.tmp", "a.tmp", some ⟨1048576, 0⟩⟩]
    (mkFinding ⟨"a.tmp", "a.tmp", some ⟨1048576, 0⟩⟩ ⟨1048576, 0⟩ "Temporary file")
    (List.mem_singleton.mpr rfl)

/-- C3: every successful scan reports the first 20 findings, the
un-truncated count, a total derived from the raw byte sizes of all
qualifying files rounded once after summing, and the truncation note
exactly when more than 20 files qualified; the second through fifth parts
identify each classifier's byte total with the sum of the raw sizes of its
qualifying files. -/
theorem claim_C3 :
    (∀ (pV : PyVal) (m : ℚ) (extS : String) (stV : PyVal) (env : Env)
        (r : ScanReport) (full : List Finding) (tot : Nat),
        useBody pV m (.str extS) stV env = .ok (.report r) →
        runScan stV m (normalizeExtList extS) env = some (full, tot) →
        r.files = full.take 20 ∧ r.files_found = full.length ∧
          r.total_size_mb = pyRound2 ((tot : ℚ) / (1024 * 1024)) ∧
          (r.note = "Limited to first 20 files" ↔ 20 < full.length) ∧
          (r.note = "All files shown" ↔ full.length ≤ 20))
  ∧ (∀ (m : ℚ) (exts : List String) (es : List Entry),
        (scanLargeFiles m exts es).2 =
          (((liveStats es).filter fun p => largeQual m exts p.1.name p.2.size).map
            fun p => p.2.size).sum)
  ∧ (∀ es : List Entry, (scanTempFiles es).2 =
        (((liveStats es).filter fun p => isTempName p.1.name).map
          fun p => p.2.size).sum)
  ∧ (∀ (days : Nat) (t0 : ℚ) (tEval : Nat → ℚ) (es : List Entry),
        (scanOldFiles days t0 tEval es).2 =
          (((liveStats es).filter fun p =>
              decide (p.2.mtime < t0 - (days : ℚ) * (24 * 60 * 60))).map
            fun p => p.2.size).sum)
  ∧ (∀ es : List Entry, (scanDuplicates es).2 =
        ((groupBySize es).map fun g =>
          if 1 < g.2.length ∧ 0 < g.1 then g.1 * (g.2.length - 1) else 0).sum) := by
  refine ⟨?_, ?_, ?_, ?_, ?_⟩
  · intro pV m extS stV env r full tot h1 h2
    obtain ⟨extList, rt, hn, hr, hrep⟩ :=
      useAfterResolve_report pV m (.str extS) stV env r
        (useBody_ok pV m (.str extS) stV env (.report r) h1)
    rw [normalizeTruthy_str] at hn
    injection hn with hn
    rw [← hn, h2] at hr
    injection hr with hr
    subst hr
    subst hrep
    refine ⟨rfl, rfl, rfl, ?_, ?_⟩
    · by_cases h20 : 20 < full.length
      · simp [mkReport, h20]
      · simp [mkReport, h20]
    · by_cases h20 : 20 < full.length
      · simp only [mkReport, if_pos h20]
        constructor
        · intro hs
          exact absurd hs (by decide)
        · intro hle
          omega
      · simp [mkReport, h20]
        omega
  · intro m exts es
    simp only [scanLargeFiles, largeHits_eq]
  · intro es
    rw [scanTempFiles_eq]
  · intro days t0 tEval es
    rw [scanOldFiles, scanOldFilesAux_eq]
  · intro es
    rw [scanDuplicates, total_dupFromGroups]

/-- C3 witness: a successful empty temp-files scan reports zero findings,
zero total and no truncation note. -/
theorem claim_C3_witness :
    (mkReport "temp_files" "/r" ([], 0)).files = ([] : List Finding).take 20 ∧
    (mkReport "temp_files" "/r" ([], 0)).files_found = ([] : List Finding).length ∧
    (mkReport "temp_files" "/r" ([], 0)).total_size_mb =
      pyRound2 (((0 : Nat) : ℚ) / (1024 * 1024)) ∧
    ((mkReport "temp_files" "/r" ([], 0)).note = "Limited to first 20 files" ↔
      20 < ([] : List Finding).length) ∧
    ((mkReport "temp_files" "/r" ([], 0)).note = "All files shown" ↔
      ([] : List Finding).length ≤ 20) :=
  claim_C3.1 (.str ".") 10 "" (.str "temp_files")
    ⟨true, true, "/r", [], 0, fun _ => 0⟩ (mkReport "temp_files" "/r" ([], 0)) [] 0
    rfl rfl

/-- C6 (code-bug evidence): the `float(...)` conversion of `min_size_mb`
runs before the `try:` block, so a JSON input whose `min_size_mb` is not
numeric raises a `ValueError` that escapes to the caller instead of
becoming a structured error; by contrast an invalid root, an unknown scan
mode, and a non-string extensions value all produce structured error
results. -/
theorem claim_C6_bug :
    use (.jsonDict (some (.str ".")) (some (.str "abc")) none none)
        ⟨true, true, "/r", [], 0, fun _ => 0⟩ =
      .error "ValueError: could not convert string to float: abc"
  ∧ use (.jsonDict (some (.str "/nope")) none none none)
        ⟨false, false, "/nope", [], 0, fun _ => 0⟩ =
      .ok (.errorResult "Path /nope does not exist after expansion.")
  ∧ use (.jsonDict (some (.str ".")) none none (some (.str "bogus")))
        ⟨true, true, "/r", [], 0, fun _ => 0⟩ =
      .ok (.errorResult "Unknown scan_type: bogus")
  ∧ use (.jsonDict (some (.str ".")) none (some (.num 5)) (some (.str "large_files")))
        ⟨true, true, "/r", [], 0, fun _ => 0⟩ =
      .ok (.errorResult "Scan failed: AttributeError: float object has no attribute split") :=
  ⟨rfl, rfl, rfl, rfl⟩

/-- Token-pipeline formulation of the extension-normalization loop. -/
theorem filterMap_normToken_eq (l : List String) :
    l.filterMap normToken =
      (((l.map fun t => pyLower (pyStrip t)).filter fun t => t ≠ "").map
        fun t => if leadsList ".".data t.data then t else "." ++ t) := by
  induction l with
  | nil => rfl
  | cons t l ih =>
    simp only [List.filterMap_cons, List.map_cons, List.filter_cons]
    by_cases he : pyLower (pyStrip t) = ""
    · simp [normToken, he, ih]
    · simp only [normToken, he, if_false, ih]
      by_cases hd : leadsList ".".data (pyLower (pyStrip t)).data = true <;>
        simp [he, hd]

/-- C7 counterexample: an extensions string with zero valid tokens
normalizes to the empty list, exactly like the empty string, and the whole
scan behaves identically on the two — the match-all outcome is not
distinguishable from a supplied restriction with zero valid entries; in
particular a 60MB `.txt` file passes the filter normalized from a
non-empty all-invalid restriction string. -/
theorem claim_C7_counterexample :
    normalizeExtList " , " = [] ∧ normalizeExtList "" = [] ∧
    useBody (.str ".") 50 (.str " , ") (.str "large_files")
        ⟨true, true, "/r", [⟨"a.txt", "a.txt", some ⟨62914560, 0⟩⟩], 0, fun _ => 0⟩ =
      useBody (.str ".") 50 (.str "") (.str "large_files")
        ⟨true, true, "/r", [⟨"a.txt", "a.txt", some ⟨62914560, 0⟩⟩], 0, fun _ => 0⟩ ∧
    largeQual 50 (normalizeExtList " , ") "a.txt" (60 * 1024 * 1024) = true := by
  refine ⟨by decide, rfl, rfl, ?_⟩
  rw [show normalizeExtList " , " = [] from by decide, largeQual,
    decide_eq_true (by norm_num : (50 : ℚ) * (1024 * 1024) ≤ ((60 * 1024 * 1024 : Nat) : ℚ))]
  rfl

/-- C7 (amended): extension normalization trims, lower-cases, drops empty
tokens and dot-prefixes the survivors; an empty normalized list disables
the extension restriction entirely; and any two extensions strings whose
normalizations are both empty make the scan behave identically — the
match-all outcome is not distinguishable from a supplied restriction with
zero valid entries. -/
theorem claim_C7 :
    (∀ s : String, normalizeExtList s =
        ((((pySplitComma s).map fun t => pyLower (pyStrip t)).filter
          fun t => t ≠ "").map
          fun t => if leadsList ".".data t.data then t else "." ++ t))
  ∧ (∀ (m : ℚ) (name : String) (size : Nat),
        largeQual m [] name size = decide (m * (1024 * 1024) ≤ (size : ℚ)))
  ∧ (∀ s1 s2 : String, normalizeExtList s1 = [] → normalizeExtList s2 = [] →
        ∀ (pV : PyVal) (m : ℚ) (stV : PyVal) (env : Env),
          useBody pV m (.str s1) stV env = useBody pV m (.str s2) stV env) := by
  refine ⟨?_, ?_, ?_⟩
  · intro s
    exact filterMap_normToken_eq (pySplitComma s)
  · intro m name size
    rw [largeQual]
    cases decide (m * (1024 * 1024) ≤ (size : ℚ)) <;> rfl
  · intro s1 s2 h1 h2 pV m stV env
    have key : ∀ pv2 : PyVal, useAfterResolve pv2 m (.str s1) stV env =
        useAfterResolve pv2 m (.str s2) stV env := by
      intro pv2
      rw [useAfterResolve, useAfterResolve, normalizeTruthy_str, normalizeTruthy_str, h1, h2]
    cases pV with
    | str s => exact key (.str s)
    | num q =>
      rw [useBody, useBody]
      by_cases hq : q = 0
      · rw [if_pos hq, if_pos hq]
        exact key (.num q)
      · rw [if_neg hq, if_neg hq]

/-- C7 witness: on a concrete environment the all-invalid restriction
string and the empty string produce the same scan output. -/
theorem claim_C7_witness :
    useBody (.str ".") 50 (.str " ,, ") (.str "large_files")
        ⟨true, true, "/r", [⟨"b.txt", "b.txt", some ⟨104857600, 0⟩⟩], 0, fun _ => 0⟩ =
      useBody (.str ".") 50 (.str "") (.str "large_files")
        ⟨true, true, "/r", [⟨"b.txt", "b.txt", some ⟨104857600, 0⟩⟩], 0, fun _ => 0⟩ :=
  claim_C7.2.2 " ,, " "" (by decide) rfl (.str ".") 50 (.str "large_files")
    ⟨true, true, "/r", [⟨"b.txt", "b.txt", some ⟨104857600, 0⟩⟩], 0, fun _ => 0⟩

/-- C10: the scan dispatch passes no caller-controlled age to the
old-files classifier (always the literal 180 days, whatever minimum size
and extension filter were supplied), so two dict-shaped invocations over
the same environment that differ only in `min_size_mb` and `extensions`
produce identical old-files reports. -/
theorem claim_C10 :
    (∀ (m : ℚ) (exts : List String) (env : Env),
        runScan (.str "old_files") m exts env =
          some (scanOldFiles 180 env.t0 env.tEval env.entries))
  ∧ (∀ (env : Env) (pV : PyVal) (m1 e1 m2 e2 : Option PyVal) (r1 r2 : ScanReport),
        use (.jsonDict (some pV) m1 e1 (some (.str "old_files"))) env = .ok (.report r1) →
        use (.jsonDict (some pV) m2 e2 (some (.str "old_files"))) env = .ok (.report r2) →
        r1 = r2) := by
  refine ⟨fun m exts env => runScan_oldFiles m exts env, ?_⟩
  intro env pV m1 e1 m2 e2 r1 r2 h1 h2
  rw [use_report_old pV m1 e1 env r1 h1, use_report_old pV m2 e2 env r2 h2]

/-- C10 witness: with `min_size_mb` 5 and filter `.zip` in one call and
`min_size_mb` 99 and no filter in the other, the two old-files reports of
a concrete environment coincide. -/
theorem claim_C10_witness :
    mkReport "old_files" "/r" (scanOldFiles 180 0 (fun _ => 0) []) =
      mkReport "old_files" "/r" (scanOldFiles 180 0 (fun _ => 0) []) :=
  claim_C10.2 ⟨true, true, "/r", [], 0, fun _ => 0⟩ (.str ".")
    (some (.num 5)) (some (.str ".zip")) (some (.num 99)) none
    (mkReport "old_files" "/r" (scanOldFiles 180 0 (fun _ => 0) []))
    (mkReport "old_files" "/r" (scanOldFiles 180 0 (fun _ => 0) []))
    rfl rfl

/-- C2: in large-files mode with minimum size `m` megabytes and normalized
extension filter `exts`, a readable regular file yields a `Large file`
finding if and only if its byte size is at least `m * 1024 * 1024` and the
filter is empty or contains its lower-cased extension; the output is
sorted descending by `size_mb` with equal-keyed findings kept in walk
order; with `m = 50` and filter `[".iso", ".zip"]`, a 60MB `.zip` file
qualifies while a 60MB `.txt` file and a 10MB `.zip` file do not. -/
theorem claim_C2 :
    (∀ (m : ℚ) (exts : List String) (es : List Entry) (f : Finding),
        f ∈ (scanLargeFiles m exts es).1 ↔
          ∃ e st, (e, st) ∈ liveStats es ∧
            largeQual m exts e.name st.size = true ∧ f = mkFinding e st "Large file")
  ∧ (∀ (m : ℚ) (exts : List String) (es : List Entry),
        ((scanLargeFiles m exts es).1).Pairwise fun a b => b.size_mb ≤ a.size_mb)
  ∧ (∀ (m : ℚ) (exts : List String) (es : List Entry) (v : ℚ),
        ((scanLargeFiles m exts es).1.filter fun f => decide (f.size_mb = v)) =
          ((largeHits m exts es).1.filter fun f => decide (f.size_mb = v)))
  ∧ largeQual 50 [".iso", ".zip"] "movie.zip" (60 * 1024 * 1024) = true
  ∧ largeQual 50 [".iso", ".zip"] "movie.txt" (60 * 1024 * 1024) = false
  ∧ largeQual 50 [".iso", ".zip"] "movie.zip" (10 * 1024 * 1024) = false := by
  have hz : largeQual 50 [".iso", ".zip"] "movie.zip" (60 * 1024 * 1024) = true := by
    rw [largeQual, decide_eq_true
      (by norm_num : (50 : ℚ) * (1024 * 1024) ≤ ((60 * 1024 * 1024 : Nat) : ℚ))]
    decide
  have ht : largeQual 50 [".iso", ".zip"] "movie.txt" (60 * 1024 * 1024) = false := by
    have hc : (([".iso", ".zip"] : List String).isEmpty ||
        [".iso", ".zip"].contains (pyLower (pySuffix "movie.txt"))) = false := by decide
    rw [largeQual, hc, Bool.and_false]
  have hs : largeQual 50 [".iso", ".zip"] "movie.zip" (10 * 1024 * 1024) = false := by
    rw [largeQual, decide_eq_false
      (by norm_num : ¬ (50 : ℚ) * (1024 * 1024) ≤ ((10 * 1024 * 1024 : Nat) : ℚ)),
      Bool.false_and]
  refine ⟨?_, ?_, ?_, hz, ht, hs⟩
  · intro m exts es f
    simp only [scanLargeFiles, mem_sortDesc, largeHits_eq, List.mem_map,
      List.mem_filter, Prod.exists]
    constructor
    · rintro ⟨e, st, ⟨hmem, hq⟩, rfl⟩
      exact ⟨e, st, hmem, hq, rfl⟩
    · rintro ⟨e, st, hmem, hq, rfl⟩
      exact ⟨e, st, ⟨hmem, hq⟩, rfl⟩
  · intro m exts es
    exact sortDesc_pairwise (largeHits m exts es).1
  · intro m exts es v
    exact sortDesc_filter v (largeHits m exts es).1

end FileScanner
